import Mathlib

/-!
Verification of the ARL-ET configuration and persistence layer.

This file is a shallow embedding, in Lean 4, of the two source modules of
the repository:

* `firebase_client.py` — a process-wide singleton client for a remote
  document store, with a namespace prefix applied to collection names and a
  bounded-retry, exponential-backoff `write_state` operation;
* `config.py` — environment-variable-backed configuration dataclasses with
  a `validate_all` pass returning a per-group boolean map.

External collaborators (the remote store, the filesystem, the process
environment, Python's numeric coercions) are modelled as explicit
parameters or as small executable functions, documented at each
definition.  Python `float` values are modelled as rationals (`Rat`);
every comparison the code performs on them is a linear-order comparison,
which rationals model faithfully for all exactly-representable inputs.
-/

namespace ARLET

/-! ## The state-store client: `write_state`

`FirebaseClient.write_state(collection, document_id, data, merge)` runs

```
max_retries = 3
for attempt in range(max_retries):
    try:
        doc_ref = self.db.collection(self._get_collection(collection)).document(document_id)
        doc_ref.set(data, merge=...)
        return True
    except Exception:
        logging.warning(...)
        if attempt == max_retries - 1:
            logging.error(...)
            return False
        time.sleep(2 ** attempt)
```

The remote store is external, so its behaviour is a parameter: an oracle
`outcome : Nat → Bool` saying whether the underlying write attempt with
the given zero-based index succeeds.  The observable interaction with the
outside world is recorded as a trace of events: each underlying write
attempt (carrying the collection name passed to the remote store) and
each backoff sleep (carrying its duration in time units).  The Python
function has an implicit fall-through (returning `None`) after the loop;
the model returns `Option Bool`, with `none` standing for that
fall-through. -/

/-- An observable event of one `write_state` call: an underlying write
attempt against the remote store (with the collection name passed to it),
or a backoff sleep of the given number of time units. -/
inductive WriteEvent where
  | attempt (collName : String)
  | sleep (units : Nat)
deriving DecidableEq, Repr

/-- `FirebaseClient._get_collection`: returns `f"{self.collection_prefix}{collection_name}"`. -/
def getCollection (pre collName : String) : String :=
  pre ++ collName

/-- `max_retries = 3` in `FirebaseClient.write_state`. -/
def max_retries : Nat := 3

/-- The body of the `for attempt in range(max_retries)` loop of
`write_state`, iterating over the list of remaining attempt indices.
Returns the function result (`none` = the implicit Python fall-through
returning `None`) and the trace of events. -/
def writeLoop (outcome : Nat → Bool) (pre collName : String) (maxR : Nat) :
    List Nat → Option Bool × List WriteEvent
  | [] => (none, [])
  | att :: rest =>
      let ev := WriteEvent.attempt (getCollection pre collName)
      if outcome att then
        (some true, [ev])
      else if att = maxR - 1 then
        (some false, [ev])
      else
        let r := writeLoop outcome pre collName maxR rest
        (r.1, ev :: WriteEvent.sleep (2 ^ att) :: r.2)

/-- `FirebaseClient.write_state`, as a function of the remote-store
outcome oracle, the client's collection prefix and the logical collection
name.  The document id, payload and merge flag do not influence control
flow, retry count, sleeps or the collection names passed, so they are not
parameters of the model. -/
def write_state (outcome : Nat → Bool) (pre collName : String) :
    Option Bool × List WriteEvent :=
  writeLoop outcome pre collName max_retries (List.range max_retries)

/-- Number of underlying write attempts recorded in a trace. -/
def writeAttempts (evs : List WriteEvent) : Nat :=
  evs.countP fun e => match e with
    | .attempt _ => true
    | _ => false

/-- The sequence of backoff sleep durations in a trace, in order. -/
def sleepDurations (evs : List WriteEvent) : List Nat :=
  evs.filterMap fun e => match e with
    | .sleep n => some n
    | _ => none

/-- The collection names passed to the remote store in a trace, in order. -/
def collectionsPassed (evs : List WriteEvent) : List String :=
  evs.filterMap fun e => match e with
    | .attempt n => some n
    | _ => none

/-! ## The configuration module (`config.py`)

The module reads every field from the process environment (with a string
default) when the dataclass class bodies are evaluated, i.e. once at the
moment of import; numeric fields pass through Python's `float(...)` /
`int(...)` coercions at that same moment, which raise `ValueError` on a
non-numeric string.  The environment is modelled as `String → Option String`
(`os.getenv` with a default is `getenv` below); the filesystem check
`os.path.exists` of `FirebaseConfig.validate` is an external collaborator
and is passed in as a predicate `path_exists : String → Bool`.
Python floats are modelled as `Rat`. -/

/-- The numeric value of a list of decimal digit characters. -/
def digitsToNat (ds : List Char) : Nat :=
  ds.foldl (fun a c => 10 * a + (c.toNat - 48)) 0

/-- Strip one optional leading sign; returns (isNegative, rest). -/
def parseSign : List Char → Bool × List Char
  | '+' :: t => (false, t)
  | '-' :: t => (true, t)
  | cs => (false, cs)

/-- Split a leading run of decimal digits from the rest. -/
def parseDigits (cs : List Char) : List Char × List Char :=
  (cs.takeWhile Char.isDigit, cs.dropWhile Char.isDigit)

/-- Negate when the sign was negative. -/
def applySign (neg : Bool) (q : Rat) : Rat :=
  if neg then -q else q

/-- Model of Python's `float(s)` coercion on finite decimal literals:
`sign? (digits ['.' digits?] | '.' digits) (('e'|'E') sign? digits)?`,
returning `none` exactly where Python raises `ValueError` (e.g. on
`"abc"` or `""`).  Not modelled (accepted by Python but rejected here,
which only shrinks the domain on which the no-exception theorems speak):
surrounding whitespace, digit-group underscores, and the special strings
`inf`/`infinity`/`nan`.  Values are exact rationals; every float the
configuration code compares is an exact decimal, so order comparisons
agree with IEEE doubles on all inputs the claims mention. -/
def parsePyFloat (s : String) : Option Rat :=
  let (neg, cs) := parseSign s.toList
  let (ip, cs) := parseDigits cs
  let (fp, cs) :=
    match cs with
    | '.' :: t => parseDigits t
    | _ => ([], cs)
  if ip.isEmpty && fp.isEmpty then none
  else
    let mant : Rat := (digitsToNat ip : Rat) + (digitsToNat fp : Rat) / (10 : Rat) ^ fp.length
    match cs with
    | [] => some (applySign neg mant)
    | 'e' :: t | 'E' :: t =>
        let (eneg, t) := parseSign t
        let (ed, t) := parseDigits t
        if ed.isEmpty || !t.isEmpty then none
        else
          let q := if eneg then mant / (10 : Rat) ^ digitsToNat ed
                   else mant * (10 : Rat) ^ digitsToNat ed
          some (applySign neg q)
    | _ => none

/-- Model of Python's `int(s)` coercion on decimal literals:
`sign? digits`, returning `none` exactly where Python raises `ValueError`.
(Whitespace and underscores are not modelled, as for `parsePyFloat`.) -/
def parsePyInt (s : String) : Option Int :=
  let (neg, cs) := parseSign s.toList
  let (ds, rest) := parseDigits cs
  if ds.isEmpty || !rest.isEmpty then none
  else if neg then some (-(digitsToNat ds : Int))
  else some ((digitsToNat ds : Int))

/-- `os.getenv(key, default)`. -/
def getenv (env : String → Option String) (key dflt : String) : String :=
  (env key).getD dflt

/-- A Python coercion result as an `Except`: `none` is a raised
`ValueError`. -/
def ofOption {α : Type} (msg : String) : Option α → Except String α
  | some a => .ok a
  | none => .error msg

/-- `FirebaseConfig` dataclass fields (all strings; their defaults never
raise). -/
structure FirebaseConfig where
  project_id : String
  credentials_path : String
  collection_prefix : String
deriving DecidableEq, Repr

/-- `TradingConfig` dataclass fields. -/
structure TradingConfig where
  default_exchange : String
  default_symbol : String
  data_timeframe : String
  max_position_size : Rat
  risk_per_trade : Rat
deriving DecidableEq, Repr

/-- `RLConfig` dataclass fields. -/
structure RLConfig where
  learning_rate : Rat
  discount_factor : Rat
  exploration_rate : Rat
  batch_size : Int
  memory_size : Int
deriving DecidableEq, Repr

/-- `LoggingConfig` dataclass fields. -/
structure LoggingConfig where
  level : String
  format : String
  file_path : String
deriving DecidableEq, Repr

/-- The state of the imported `config` module: the default instance each
dataclass holds after its class body has been evaluated.  A dataclass
constructed with no arguments copies these values. -/
structure ModuleState where
  firebaseDefaults : FirebaseConfig
  tradingDefaults : TradingConfig
  rlDefaults : RLConfig
  loggingDefaults : LoggingConfig
deriving DecidableEq, Repr

/-- Importing `config.py`: every `os.getenv` read and every
`float(...)`/`int(...)` coercion in the dataclass bodies happens here,
once, in source order; a coercion failure is a raised `ValueError` that
aborts the import. -/
def importConfigModule (env : String → Option String) :
    Except String ModuleState := do
  let fb : FirebaseConfig :=
    { project_id := getenv env "FIREBASE_PROJECT_ID" "arl-et-production"
      credentials_path := getenv env "FIREBASE_CREDENTIALS" "./firebase-credentials.json"
      collection_prefix := getenv env "FIREBASE_COLLECTION_PREFIX" "ARLET_" }
  let mps ← ofOption "ValueError: MAX_POSITION_SIZE"
    (parsePyFloat (getenv env "MAX_POSITION_SIZE" "0.1"))
  let rpt ← ofOption "ValueError: RISK_PER_TRADE"
    (parsePyFloat (getenv env "RISK_PER_TRADE" "0.02"))
  let tr : TradingConfig :=
    { default_exchange := getenv env "DEFAULT_EXCHANGE" "binance"
      default_symbol := getenv env "DEFAULT_SYMBOL" "BTC/USDT"
      data_timeframe := getenv env "DATA_TIMEFRAME" "1h"
      max_position_size := mps
      risk_per_trade := rpt }
  let lr ← ofOption "ValueError: RL_LEARNING_RATE"
    (parsePyFloat (getenv env "RL_LEARNING_RATE" "0.001"))
  let df ← ofOption "ValueError: RL_DISCOUNT_FACTOR"
    (parsePyFloat (getenv env "RL_DISCOUNT_FACTOR" "0.95"))
  let er ← ofOption "ValueError: RL_EXPLORATION_RATE"
    (parsePyFloat (getenv env "RL_EXPLORATION_RATE" "0.1"))
  let bs ← ofOption "ValueError: RL_BATCH_SIZE"
    (parsePyInt (getenv env "RL_BATCH_SIZE" "32"))
  let ms ← ofOption "ValueError: RL_MEMORY_SIZE"
    (parsePyInt (getenv env "RL_MEMORY_SIZE" "10000"))
  let rl : RLConfig :=
    { learning_rate := lr
      discount_factor := df
      exploration_rate := er
      batch_size := bs
      memory_size := ms }
  let lg : LoggingConfig :=
    { level := getenv env "LOG_LEVEL" "INFO"
      format := "%(asctime)s - %(name)s - %(levelname)s - %(message)s"
      file_path := getenv env "LOG_FILE" "arl_et.log" }
  pure { firebaseDefaults := fb, tradingDefaults := tr,
         rlDefaults := rl, loggingDefaults := lg }

/-- The `ARLETConfig` aggregate. -/
structure ARLETConfig where
  firebase : FirebaseConfig
  trading : TradingConfig
  rl : RLConfig
  logging : LoggingConfig
deriving DecidableEq, Repr

/-- `ARLETConfig.__init__`: constructs each group dataclass with no
arguments, which copies the module-level default values.  The current
process environment `env` is in scope at construction time but — as in
the source, where the dataclass defaults were already evaluated at the
moment of import — is never read. -/
def mkARLETConfig (m : ModuleState) (_env : String → Option String) :
    ARLETConfig :=
  { firebase := m.firebaseDefaults
    trading := m.tradingDefaults
    rl := m.rlDefaults
    logging := m.loggingDefaults }

/-- `FirebaseConfig.validate`: false when the project id is falsy (the
empty string) or the credentials path does not exist on the filesystem
(`path_exists` models `os.path.exists`). -/
def FirebaseConfig.validate (path_exists : String → Bool)
    (c : FirebaseConfig) : Bool :=
  if c.project_id = "" then false
  else if !path_exists c.credentials_path then false
  else true

/-- `ARLETConfig._validate_trading` (the leading underscore of the source
name is dropped): false when `max_position_size <= 0` or when
`not (0 < risk_per_trade <= 1)`. -/
def ARLETConfig.validate_trading (c : ARLETConfig) : Bool :=
  if c.trading.max_position_size ≤ 0 then false
  else if ¬(0 < c.trading.risk_per_trade ∧ c.trading.risk_per_trade ≤ 1) then false
  else true

/-- `ARLETConfig._validate_rl` (the leading underscore of the source name
is dropped): false when `not (0 < learning_rate <= 1)` or when
`not (0 <= exploration_rate <= 1)`. -/
def ARLETConfig.validate_rl (c : ARLETConfig) : Bool :=
  if ¬(0 < c.rl.learning_rate ∧ c.rl.learning_rate ≤ 1) then false
  else if ¬(0 ≤ c.rl.exploration_rate ∧ c.rl.exploration_rate ≤ 1) then false
  else true

/-- The dictionary returned by `ARLETConfig.validate_all`, with its three
keys `"firebase"`, `"trading"`, `"rl"` as fields. -/
structure ValidationMap where
  firebase : Bool
  trading : Bool
  rl : Bool
deriving DecidableEq, Repr

/-- `ARLETConfig.validate_all`. -/
def ARLETConfig.validate_all (path_exists : String → Bool)
    (c : ARLETConfig) : ValidationMap :=
  { firebase := FirebaseConfig.validate path_exists c.firebase
    trading := ARLETConfig.validate_trading c
    rl := ARLETConfig.validate_rl c }

/-- The whole pipeline an external caller runs: import the configuration
module under environment `env` (which may raise `ValueError`), construct
the `ARLETConfig` aggregate, and call `validate_all`.  Validation itself
is exception-free: any error of the pipeline comes from the import-time
numeric coercions. -/
def buildAndValidate (path_exists : String → Bool)
    (env : String → Option String) : Except String ValidationMap := do
  let m ← importConfigModule env
  pure (ARLETConfig.validate_all path_exists (mkARLETConfig m env))

/-- An environment where `MAX_POSITION_SIZE` is set to a non-numeric
string and everything else is unset. -/
def badNumericEnv : String → Option String :=
  fun k => if k = "MAX_POSITION_SIZE" then some "abc" else none

/-- The empty environment: every variable unset, all defaults used. -/
def emptyEnv : String → Option String := fun _ => none

/-! ## The singleton client, sequentially (`FirebaseClient.__new__`)

For a single thread, `FirebaseClient()` runs: if the class slot
`_instance` is `None`, assign a fresh (uninitialized) object to the slot
and then call `_initialize()` on it — which either completes (the object
becomes initialized) or raises `ConnectionError`, leaving the already
assigned slot pointing at the uninitialized object; if the slot is not
`None`, return the stored object without calling `_initialize`.  The
external initialization outcome is the parameter `initOk`; `initCalls`
counts the `_initialize` executions. -/

/-- A `FirebaseClient` object: only whether `_initialize` has completed
on it is observable in the model. -/
structure ClientObj where
  initialized : Bool
deriving DecidableEq, Repr

/-- The class-level state of `FirebaseClient`: the `_instance` slot and a
count of `_initialize` executions. -/
structure ClsState where
  inst : Option ClientObj
  initCalls : Nat
deriving DecidableEq, Repr

/-- The class state before any construction. -/
def emptyCls : ClsState := { inst := none, initCalls := 0 }

/-- One sequential `FirebaseClient()` call: returns the new class state
and either the obtained object or the raised `ConnectionError` message.
(Sequentially, the second, lock-protected check coincides with the
first.) -/
def newFirebaseClient (initOk : Bool) (s : ClsState) :
    ClsState × Except String ClientObj :=
  match s.inst with
  | some o => (s, .ok o)
  | none =>
      if initOk then
        ({ inst := some { initialized := true }, initCalls := s.initCalls + 1 },
         .ok { initialized := true })
      else
        ({ inst := some { initialized := false }, initCalls := s.initCalls + 1 },
         .error "ConnectionError: Firebase initialization failed")

/-! ## The singleton client, concurrently (`FirebaseClient.__new__`)

An interleaving model of N threads all calling `FirebaseClient()` for the
first time, under sequentially consistent shared memory.  Each thread
runs the double-checked-locking body; the shared state is the `_instance`
slot (holding the id of the created object, ids counted by `objects`),
the lock, and the count `conns` of `_initialize` executions (each of
which establishes the single underlying connection).  Creation is split
into its two source statements: `cls._instance = super().__new__(cls)`
(`assignInstance`) and `cls._instance._initialize()` (`runInitialize`),
so the model exhibits the window in which the slot is assigned but not
yet initialized. -/

/-- The program counter of one thread in `FirebaseClient.__new__`:
before the first null check; waiting to acquire the lock; holding the
lock before the second check; about to assign the slot; about to run
`_initialize`; about to release the lock and return; returned (with the
id of the object obtained). -/
inductive PC where
  | start
  | waitLock
  | locked
  | create1
  | create2
  | rel
  | done (ret : Nat)
deriving DecidableEq, Repr

/-- The shared state of N threads constructing the singleton. -/
structure SysState (N : Nat) where
  inst : Option Nat
  lockHeld : Option (Fin N)
  objects : Nat
  conns : Nat
  threads : Fin N → PC

/-- All threads at the first check; no object, no connection, lock free. -/
def initState (N : Nat) : SysState N :=
  { inst := none, lockHeld := none, objects := 0, conns := 0,
    threads := fun _ => PC.start }

/-- One interleaved step of `FirebaseClient.__new__` by thread `i`. -/
inductive Step (N : Nat) : SysState N → SysState N → Prop where
  | checkFound (s : SysState N) (i : Fin N) (j : Nat) :
      s.threads i = .start → s.inst = some j →
      Step N s { s with threads := Function.update s.threads i (.done j) }
  | checkMissing (s : SysState N) (i : Fin N) :
      s.threads i = .start → s.inst = none →
      Step N s { s with threads := Function.update s.threads i .waitLock }
  | acquire (s : SysState N) (i : Fin N) :
      s.threads i = .waitLock → s.lockHeld = none →
      Step N s { s with lockHeld := some i,
                        threads := Function.update s.threads i .locked }
  | checkAgainFound (s : SysState N) (i : Fin N) (j : Nat) :
      s.threads i = .locked → s.inst = some j →
      Step N s { s with threads := Function.update s.threads i .rel }
  | checkAgainMissing (s : SysState N) (i : Fin N) :
      s.threads i = .locked → s.inst = none →
      Step N s { s with threads := Function.update s.threads i .create1 }
  | assignInstance (s : SysState N) (i : Fin N) :
      s.threads i = .create1 →
      Step N s { s with inst := some s.objects, objects := s.objects + 1,
                        threads := Function.update s.threads i .create2 }
  | runInitialize (s : SysState N) (i : Fin N) :
      s.threads i = .create2 →
      Step N s { s with conns := s.conns + 1,
                        threads := Function.update s.threads i .rel }
  | releaseReturn (s : SysState N) (i : Fin N) (j : Nat) :
      s.threads i = .rel → s.inst = some j →
      Step N s { s with lockHeld := none,
                        threads := Function.update s.threads i (.done j) }

/-- The states an N-thread first-time construction can reach. -/
def Reachable (N : Nat) (s : SysState N) : Prop :=
  Relation.ReflTransGen (Step N) (initState N) s

/-- Whether a program counter is inside the lock-protected region. -/
def holdsLock : PC → Bool
  | .locked => true
  | .create1 => true
  | .create2 => true
  | .rel => true
  | _ => false

/-- The inductive invariant of the construction system. -/
structure Inv (N : Nat) (s : SysState N) : Prop where
  lockOwner : ∀ i : Fin N, holdsLock (s.threads i) = true → s.lockHeld = some i
  objLe : s.objects ≤ 1
  instNone : s.inst = none ↔ s.objects = 0
  instZero : ∀ k, s.inst = some k → k = 0
  create1None : ∀ i : Fin N, s.threads i = .create1 → s.inst = none
  create2State : ∀ i : Fin N, s.threads i = .create2 →
    s.objects = 1 ∧ s.conns = 0
  connsLe : s.conns ≤ s.objects
  connsFull : (∀ i : Fin N, s.threads i ≠ .create1 ∧ s.threads i ≠ .create2) →
    s.conns = s.objects
  doneInst : ∀ (i : Fin N) (r : Nat), s.threads i = .done r → s.inst = some r

/-- The final state of a concrete two-thread construction: one object
(id 0), one connection, lock free, both threads returned object 0. -/
def twoThreadFinal : SysState 2 :=
  { inst := some 0, lockHeld := none, objects := 1, conns := 1,
    threads := fun _ => PC.done 0 }

/-- Intermediate states of one concrete two-thread interleaving: thread 0
passes its first check. -/
def cs0 : SysState 2 := initState 2

/-- Thread 0 saw the empty slot. -/
def cs1 : SysState 2 :=
  { cs0 with threads := Function.update cs0.threads 0 PC.waitLock }

/-- Thread 0 acquired the lock. -/
def cs2 : SysState 2 :=
  { cs1 with lockHeld := some 0,
             threads := Function.update cs1.threads 0 PC.locked }

/-- Thread 0's second check still saw the empty slot. -/
def cs3 : SysState 2 :=
  { cs2 with threads := Function.update cs2.threads 0 PC.create1 }

/-- Thread 0 assigned the new object to the slot (not yet initialized). -/
def cs4 : SysState 2 :=
  { cs3 with inst := some cs3.objects, objects := cs3.objects + 1,
             threads := Function.update cs3.threads 0 PC.create2 }

/-- Thread 1's first check found the slot assigned — while initialization
is still pending — and returned the existing object. -/
def cs5 : SysState 2 :=
  { cs4 with threads := Function.update cs4.threads 1 (PC.done 0) }

/-- Thread 0 ran `_initialize`, establishing the single connection. -/
def cs6 : SysState 2 :=
  { cs5 with conns := cs5.conns + 1,
             threads := Function.update cs5.threads 0 PC.rel }

/-- Thread 0 released the lock and returned the object. -/
def cs7 : SysState 2 :=
  { cs6 with lockHeld := none,
             threads := Function.update cs6.threads 0 (PC.done 0) }

/-! ## Theorems -/

/-- Every write-attempt event in the trace of the retry loop carries the
prefixed collection name. -/
theorem attempt_mem_writeLoop (outcome : Nat → Bool)
    (pre collName : String) (maxR : Nat) (l : List Nat) (n : String)
    (hn : WriteEvent.attempt n ∈ (writeLoop outcome pre collName maxR l).2) :
    n = pre ++ collName := by
  induction l with
  | nil => simp [writeLoop] at hn
  | cons a t ih =>
      simp only [writeLoop] at hn
      split at hn
      · simpa [getCollection] using hn
      · split at hn
        · simpa [getCollection] using hn
        · simp only [List.mem_cons] at hn
          rcases hn with h | h | h
          · simpa [getCollection] using h
          · exact WriteEvent.noConfusion h
          · exact ih h

/-- Every collection name in the trace of the retry loop is the prefixed
name. -/
theorem collectionsPassed_writeLoop (outcome : Nat → Bool)
    (pre collName : String) (maxR : Nat) (l : List Nat) (n : String)
    (hn : n ∈ collectionsPassed (writeLoop outcome pre collName maxR l).2) :
    n = pre ++ collName := by
  rw [collectionsPassed, List.mem_filterMap] at hn
  obtain ⟨e, he, hfe⟩ := hn
  cases e with
  | attempt m =>
      have hmn : m = n := by simpa using hfe
      have hm := attempt_mem_writeLoop outcome pre collName maxR l m he
      rw [hmn] at hm
      exact hm
  | sleep u => exact Option.noConfusion hfe

/-- C1: a `write_state` call whose underlying write fails on attempts 1
and 2 (zero-indexed 0 and 1) and succeeds on attempt 3 returns `True`,
performs exactly 3 underlying write attempts, and sleeps
`2^attempt` time units after each non-final failed attempt — sleeps of
1 and 2 time units. -/
theorem write_state_third_attempt_succeeds (pre collName : String) :
    (write_state (fun a => decide (a = 2)) pre collName).1 = some true ∧
    writeAttempts (write_state (fun a => decide (a = 2)) pre collName).2 = 3 ∧
    sleepDurations (write_state (fun a => decide (a = 2)) pre collName).2 = [1, 2] :=
  ⟨rfl, rfl, rfl⟩

/-- C2: a `write_state` call whose underlying write fails on all 3
attempts returns `False` — an ordinary return value, not a raised
exception (the model's `Except`-free result type carries no exception
channel: every failure is the value `some false`) — after exactly 3
underlying attempts. -/
theorem write_state_all_attempts_fail (pre collName : String) :
    (write_state (fun _ => false) pre collName).1 = some false ∧
    writeAttempts (write_state (fun _ => false) pre collName).2 = 3 :=
  ⟨rfl, rfl⟩

/-- C9: for every outcome sequence of the underlying attempts,
`write_state` terminates with an explicit `return True` or
`return False`: the implicit Python fall-through returning `None`
(the model's `none`) is unreachable. -/
theorem write_state_always_boolean (outcome : Nat → Bool)
    (pre collName : String) :
    ((write_state outcome pre collName).1).isSome = true := by
  have hr : List.range 3 = [0, 1, 2] := rfl
  unfold write_state max_retries
  rw [hr]
  cases h0 : outcome 0 <;> cases h1 : outcome 1 <;> cases h2 : outcome 2 <;>
    simp [writeLoop, h0, h1, h2]

/-- C3, counterexample: with the collection namespace set to the empty
string — a value the code accepts from `FIREBASE_COLLECTION_PREFIX` — a
`write_state` call on logical collection `"state"` passes the bare name
`"state"` itself to the remote store, so "the bare (unprefixed) name c is
never passed to the remote store" fails as stated. -/
theorem write_state_empty_pre_passes_bare_name :
    "state" ∈ collectionsPassed (write_state (fun _ => true) "" "state").2 := by
  decide

/-- C3, amended: every collection name passed to the remote store during
a `write_state` call equals the namespace prefix concatenated with the
logical name; and provided the configured prefix is nonempty, that name
differs from the bare logical name, so the bare name is never passed. -/
theorem write_state_collections_prefixed (outcome : Nat → Bool)
    (pre collName n : String)
    (hn : n ∈ collectionsPassed (write_state outcome pre collName).2) :
    n = pre ++ collName ∧ (pre ≠ "" → n ≠ collName) := by
  have h := collectionsPassed_writeLoop outcome pre collName max_retries
    (List.range max_retries) n hn
  refine ⟨h, fun hpre hbare => ?_⟩
  rw [hbare] at h
  have hl : (pre ++ collName).length = collName.length := by rw [← h]
  rw [String.length_append] at hl
  have h0 : pre.length = 0 := by omega
  have hdata : pre.data = [] := List.length_eq_zero.mp h0
  apply hpre
  cases pre with
  | mk d =>
      have hd : d = [] := hdata
      rw [hd]

/-- Witness for the amended C3 at a concrete call: prefix `"ARLET_"`,
collection `"state"`, where `"ARLET_state"` is observed. -/
theorem write_state_collections_prefixed_witness :
    ("ARLET_state" ∈
        collectionsPassed (write_state (fun _ => true) "ARLET_" "state").2) ∧
    ("ARLET_state" = "ARLET_" ++ "state" ∧
      ("ARLET_" ≠ "" → "ARLET_state" ≠ "state")) :=
  ⟨by decide,
   write_state_collections_prefixed (fun _ => true) "ARLET_" "state"
     "ARLET_state" (by decide)⟩

/-- C8: when `_initialize` raises during the first `FirebaseClient()`
call, the call raises `ConnectionError` but the class slot `_instance`
keeps the partially constructed (uninitialized) object; every subsequent
`FirebaseClient()` call returns that uninitialized object without
calling `_initialize` again (the `_initialize` call count stays at 1)
and without raising. -/
theorem singleton_after_failed_init (b : Bool) :
    (newFirebaseClient false emptyCls).2 =
      .error "ConnectionError: Firebase initialization failed" ∧
    (newFirebaseClient false emptyCls).1.inst =
      some { initialized := false } ∧
    newFirebaseClient b (newFirebaseClient false emptyCls).1 =
      ((newFirebaseClient false emptyCls).1,
        .ok { initialized := false }) ∧
    (newFirebaseClient false emptyCls).1.initCalls = 1 := by
  cases b <;> exact ⟨rfl, rfl, rfl, rfl⟩

/-- C10: constructing `ARLETConfig` copies the dataclass defaults that
were computed when the module was imported and reads nothing from the
current environment: two constructions in the same process yield equal
field values in every group even if the environment differs between
them, and each equals the import-time defaults. -/
theorem config_construction_ignores_env (m : ModuleState)
    (e1 e2 : String → Option String) :
    mkARLETConfig m e1 = mkARLETConfig m e2 ∧
    mkARLETConfig m e1 =
      { firebase := m.firebaseDefaults, trading := m.tradingDefaults,
        rl := m.rlDefaults, logging := m.loggingDefaults } :=
  ⟨rfl, rfl⟩

/-- C5: the `"trading"` entry of `validate_all()` is `false` exactly when
`max_position_size ≤ 0` or `risk_per_trade` lies outside the interval
`(0, 1]` — so `risk_per_trade = 1` passes and `risk_per_trade = 0`
fails — and `true` otherwise. -/
theorem validate_all_trading_false_iff (path_exists : String → Bool)
    (c : ARLETConfig) :
    (ARLETConfig.validate_all path_exists c).trading = false ↔
      (c.trading.max_position_size ≤ 0 ∨ c.trading.risk_per_trade ≤ 0 ∨
        1 < c.trading.risk_per_trade) := by
  unfold ARLETConfig.validate_all ARLETConfig.validate_trading
  split_ifs with h1 h2
  · simpa using Or.inl h1
  · refine iff_of_false (by simp) ?_
    push_neg
    exact ⟨not_le.mp h1, h2.1, h2.2⟩
  · push_neg at h2
    refine iff_of_true rfl ?_
    rcases le_or_lt c.trading.risk_per_trade 0 with h | h
    · exact Or.inr (Or.inl h)
    · exact Or.inr (Or.inr (h2 h))

/-- C6: the `"rl"` entry of `validate_all()` is `false` exactly when
`learning_rate` lies outside `(0, 1]` or `exploration_rate` lies outside
`[0, 1]` — so `exploration_rate = 0` passes — and `true` otherwise. -/
theorem validate_all_rl_false_iff (path_exists : String → Bool)
    (c : ARLETConfig) :
    (ARLETConfig.validate_all path_exists c).rl = false ↔
      (c.rl.learning_rate ≤ 0 ∨ 1 < c.rl.learning_rate ∨
        c.rl.exploration_rate < 0 ∨ 1 < c.rl.exploration_rate) := by
  unfold ARLETConfig.validate_all ARLETConfig.validate_rl
  split_ifs with h1 h2
  · refine iff_of_false (by simp) ?_
    push_neg
    exact ⟨h1.1, h1.2, h2.1, h2.2⟩
  · push_neg at h2
    refine iff_of_true rfl ?_
    rcases lt_or_le c.rl.exploration_rate 0 with h | h
    · exact Or.inr (Or.inr (Or.inl h))
    · exact Or.inr (Or.inr (Or.inr (h2 h)))
  · push_neg at h1
    refine iff_of_true rfl ?_
    rcases le_or_lt c.rl.learning_rate 0 with h | h
    · exact Or.inl h
    · exact Or.inr (Or.inl (h1 h))

/-- C4, counterexample: with `MAX_POSITION_SIZE` set to the non-numeric
string `"abc"`, the pipeline from environment to validated configuration
raises `ValueError` — the `float(...)` coercion in the dataclass body
fails before `validate_all` can report anything — so "raises no
exception for every assignment, including non-numeric strings" fails as
stated. -/
theorem buildAndValidate_raises_on_nonnumeric :
    buildAndValidate (fun _ => true) badNumericEnv =
      .error "ValueError: MAX_POSITION_SIZE" := rfl

/-- C4, amended: for every assignment of environment-variable values
whose float/int-typed fields coerce successfully (in particular every
out-of-range but numeric value), constructing the configuration
aggregate and calling `validate_all` raises no exception; invalid values
are reported only as `false` entries of the returned boolean map. -/
theorem buildAndValidate_no_exception (path_exists : String → Bool)
    (env : String → Option String)
    (h1 : (parsePyFloat (getenv env "MAX_POSITION_SIZE" "0.1")).isSome = true)
    (h2 : (parsePyFloat (getenv env "RISK_PER_TRADE" "0.02")).isSome = true)
    (h3 : (parsePyFloat (getenv env "RL_LEARNING_RATE" "0.001")).isSome = true)
    (h4 : (parsePyFloat (getenv env "RL_DISCOUNT_FACTOR" "0.95")).isSome = true)
    (h5 : (parsePyFloat (getenv env "RL_EXPLORATION_RATE" "0.1")).isSome = true)
    (h6 : (parsePyInt (getenv env "RL_BATCH_SIZE" "32")).isSome = true)
    (h7 : (parsePyInt (getenv env "RL_MEMORY_SIZE" "10000")).isSome = true) :
    (buildAndValidate path_exists env).isOk = true := by
  obtain ⟨v1, hv1⟩ := Option.isSome_iff_exists.mp h1
  obtain ⟨v2, hv2⟩ := Option.isSome_iff_exists.mp h2
  obtain ⟨v3, hv3⟩ := Option.isSome_iff_exists.mp h3
  obtain ⟨v4, hv4⟩ := Option.isSome_iff_exists.mp h4
  obtain ⟨v5, hv5⟩ := Option.isSome_iff_exists.mp h5
  obtain ⟨v6, hv6⟩ := Option.isSome_iff_exists.mp h6
  obtain ⟨v7, hv7⟩ := Option.isSome_iff_exists.mp h7
  simp [buildAndValidate, importConfigModule, ofOption, hv1, hv2, hv3, hv4,
    hv5, hv6, hv7, Except.isOk, Except.toBool, bind, Except.bind, pure,
    Except.pure]

/-- Witness for the amended C4: with every variable unset, all defaults
coerce and the pipeline returns a boolean map without raising. -/
theorem buildAndValidate_no_exception_witness :
    ((parsePyFloat (getenv emptyEnv "MAX_POSITION_SIZE" "0.1")).isSome = true ∧
     (parsePyFloat (getenv emptyEnv "RISK_PER_TRADE" "0.02")).isSome = true ∧
     (parsePyFloat (getenv emptyEnv "RL_LEARNING_RATE" "0.001")).isSome = true ∧
     (parsePyFloat (getenv emptyEnv "RL_DISCOUNT_FACTOR" "0.95")).isSome = true ∧
     (parsePyFloat (getenv emptyEnv "RL_EXPLORATION_RATE" "0.1")).isSome = true ∧
     (parsePyInt (getenv emptyEnv "RL_BATCH_SIZE" "32")).isSome = true ∧
     (parsePyInt (getenv emptyEnv "RL_MEMORY_SIZE" "10000")).isSome = true) ∧
    (buildAndValidate (fun _ => true) emptyEnv).isOk = true :=
  ⟨⟨rfl, rfl, rfl, rfl, rfl, rfl, rfl⟩,
   buildAndValidate_no_exception (fun _ => true) emptyEnv
     rfl rfl rfl rfl rfl rfl rfl⟩

/-- Case split on a predicate of one thread's program counter after an
update. -/
theorem update_pc_cases {N : Nat} (f : Fin N → PC) (i k : Fin N) (v : PC)
    (p : PC → Prop) (h : p (Function.update f i v k)) :
    (k = i ∧ p v) ∨ (k ≠ i ∧ p (f k)) := by
  by_cases hk : k = i
  · subst hk
    rw [Function.update_same] at h
    exact Or.inl ⟨rfl, h⟩
  · rw [Function.update_noteq hk] at h
    exact Or.inr ⟨hk, h⟩

/-- Case split for a lock-region membership fact after an update. -/
theorem update_holdsLock_cases {N : Nat} (f : Fin N → PC) (i k : Fin N)
    (v : PC) (h : holdsLock (Function.update f i v k) = true) :
    (k = i ∧ holdsLock v = true) ∨ (k ≠ i ∧ holdsLock (f k) = true) :=
  update_pc_cases f i k v (fun pc => holdsLock pc = true) h

/-- Case split for a program-counter equation after an update. -/
theorem update_eq_cases {N : Nat} (f : Fin N → PC) (i k : Fin N)
    (v w : PC) (h : Function.update f i v k = w) :
    (k = i ∧ v = w) ∨ (k ≠ i ∧ f k = w) :=
  update_pc_cases f i k v (fun pc => pc = w) h

/-- An inequation about another thread survives undoing an update. -/
theorem update_ne_of_ne {N : Nat} (f : Fin N → PC) (i k : Fin N) (v w : PC)
    (h : Function.update f i v k ≠ w) (hk : k ≠ i) : f k ≠ w := by
  rw [Function.update_noteq hk] at h
  exact h

/-- The updated thread cannot differ from its new program counter. -/
theorem update_self_ne {N : Nat} (f : Fin N → PC) (i : Fin N) (v : PC)
    (h : Function.update f i v i ≠ v) : False := by
  rw [Function.update_same] at h
  exact h rfl

/-- Two threads inside the lock-protected region coincide. -/
theorem lock_unique {N : Nat} {s : SysState N} (inv : Inv N s)
    {i k : Fin N} (hi : holdsLock (s.threads i) = true)
    (hk : holdsLock (s.threads k) = true) : i = k := by
  have h1 := inv.lockOwner i hi
  have h2 := inv.lockOwner k hk
  rw [h1] at h2
  injection h2

/-- The invariant holds in the initial state. -/
theorem inv_init (N : Nat) : Inv N (initState N) := by
  constructor
  · intro i h
    simp [initState, holdsLock] at h
  · simp [initState]
  · simp [initState]
  · intro k hk
    simp [initState] at hk
  · intro i hi
    simp [initState] at hi
  · intro i hi
    simp [initState] at hi
  · simp [initState]
  · intro _
    simp [initState]
  · intro i r hi
    simp [initState] at hi

/-- The invariant is preserved by every interleaved step. -/
theorem inv_step {N : Nat} {s t : SysState N} (inv : Inv N s)
    (h : Step N s t) : Inv N t := by
  cases h with
  | checkFound i j hpc hinst =>
      refine ⟨?_, inv.objLe, inv.instNone, inv.instZero, ?_, ?_,
        inv.connsLe, ?_, ?_⟩
      · intro k hk
        rcases update_holdsLock_cases s.threads i k _ hk with ⟨_, hv⟩ | ⟨_, hold⟩
        · simp [holdsLock] at hv
        · exact inv.lockOwner k hold
      · intro k hk
        rcases update_eq_cases s.threads i k _ _ hk with ⟨_, hv⟩ | ⟨_, hold⟩
        · exact PC.noConfusion hv
        · exact inv.create1None k hold
      · intro k hk
        rcases update_eq_cases s.threads i k _ _ hk with ⟨_, hv⟩ | ⟨_, hold⟩
        · exact PC.noConfusion hv
        · exact inv.create2State k hold
      · intro hall
        apply inv.connsFull
        intro k
        by_cases hk : k = i
        · subst hk
          rw [hpc]
          exact ⟨by simp, by simp⟩
        · exact ⟨update_ne_of_ne s.threads i k _ _ (hall k).1 hk,
            update_ne_of_ne s.threads i k _ _ (hall k).2 hk⟩
      · intro k r hk
        rcases update_eq_cases s.threads i k _ _ hk with ⟨_, hv⟩ | ⟨_, hold⟩
        · injection hv with hjr
          rw [← hjr]
          exact hinst
        · exact inv.doneInst k r hold
  | checkMissing i hpc hinst =>
      refine ⟨?_, inv.objLe, inv.instNone, inv.instZero, ?_, ?_,
        inv.connsLe, ?_, ?_⟩
      · intro k hk
        rcases update_holdsLock_cases s.threads i k _ hk with ⟨_, hv⟩ | ⟨_, hold⟩
        · simp [holdsLock] at hv
        · exact inv.lockOwner k hold
      · intro k hk
        rcases update_eq_cases s.threads i k _ _ hk with ⟨_, hv⟩ | ⟨_, hold⟩
        · exact PC.noConfusion hv
        · exact inv.create1None k hold
      · intro k hk
        rcases update_eq_cases s.threads i k _ _ hk with ⟨_, hv⟩ | ⟨_, hold⟩
        · exact PC.noConfusion hv
        · exact inv.create2State k hold
      · intro hall
        apply inv.connsFull
        intro k
        by_cases hk : k = i
        · subst hk
          rw [hpc]
          exact ⟨by simp, by simp⟩
        · exact ⟨update_ne_of_ne s.threads i k _ _ (hall k).1 hk,
            update_ne_of_ne s.threads i k _ _ (hall k).2 hk⟩
      · intro k r hk
        rcases update_eq_cases s.threads i k _ _ hk with ⟨_, hv⟩ | ⟨_, hold⟩
        · exact PC.noConfusion hv
        · exact inv.doneInst k r hold
  | acquire i hpc hlock =>
      refine ⟨?_, inv.objLe, inv.instNone, inv.instZero, ?_, ?_,
        inv.connsLe, ?_, ?_⟩
      · intro k hk
        rcases update_holdsLock_cases s.threads i k _ hk with ⟨rfl, _⟩ | ⟨_, hold⟩
        · rfl
        · exact absurd (inv.lockOwner k hold) (by simp [hlock])
      · intro k hk
        rcases update_eq_cases s.threads i k _ _ hk with ⟨_, hv⟩ | ⟨_, hold⟩
        · exact PC.noConfusion hv
        · exact inv.create1None k hold
      · intro k hk
        rcases update_eq_cases s.threads i k _ _ hk with ⟨_, hv⟩ | ⟨_, hold⟩
        · exact PC.noConfusion hv
        · exact inv.create2State k hold
      · intro hall
        apply inv.connsFull
        intro k
        by_cases hk : k = i
        · subst hk
          rw [hpc]
          exact ⟨by simp, by simp⟩
        · exact ⟨update_ne_of_ne s.threads i k _ _ (hall k).1 hk,
            update_ne_of_ne s.threads i k _ _ (hall k).2 hk⟩
      · intro k r hk
        rcases update_eq_cases s.threads i k _ _ hk with ⟨_, hv⟩ | ⟨_, hold⟩
        · exact PC.noConfusion hv
        · exact inv.doneInst k r hold
  | checkAgainFound i j hpc hinst =>
      refine ⟨?_, inv.objLe, inv.instNone, inv.instZero, ?_, ?_,
        inv.connsLe, ?_, ?_⟩
      · intro k hk
        rcases update_holdsLock_cases s.threads i k _ hk with ⟨rfl, _⟩ | ⟨_, hold⟩
        · exact inv.lockOwner k (by rw [hpc]; rfl)
        · exact inv.lockOwner k hold
      · intro k hk
        rcases update_eq_cases s.threads i k _ _ hk with ⟨_, hv⟩ | ⟨_, hold⟩
        · exact PC.noConfusion hv
        · exact inv.create1None k hold
      · intro k hk
        rcases update_eq_cases s.threads i k _ _ hk with ⟨_, hv⟩ | ⟨_, hold⟩
        · exact PC.noConfusion hv
        · exact inv.create2State k hold
      · intro hall
        apply inv.connsFull
        intro k
        by_cases hk : k = i
        · subst hk
          rw [hpc]
          exact ⟨by simp, by simp⟩
        · exact ⟨update_ne_of_ne s.threads i k _ _ (hall k).1 hk,
            update_ne_of_ne s.threads i k _ _ (hall k).2 hk⟩
      · intro k r hk
        rcases update_eq_cases s.threads i k _ _ hk with ⟨_, hv⟩ | ⟨_, hold⟩
        · exact PC.noConfusion hv
        · exact inv.doneInst k r hold
  | checkAgainMissing i hpc hinst =>
      refine ⟨?_, inv.objLe, inv.instNone, inv.instZero, ?_, ?_,
        inv.connsLe, ?_, ?_⟩
      · intro k hk
        rcases update_holdsLock_cases s.threads i k _ hk with ⟨rfl, _⟩ | ⟨_, hold⟩
        · exact inv.lockOwner k (by rw [hpc]; rfl)
        · exact inv.lockOwner k hold
      · intro k hk
        rcases update_eq_cases s.threads i k _ _ hk with ⟨_, _⟩ | ⟨_, hold⟩
        · exact hinst
        · exact inv.create1None k hold
      · intro k hk
        rcases update_eq_cases s.threads i k _ _ hk with ⟨_, hv⟩ | ⟨_, hold⟩
        · exact PC.noConfusion hv
        · exact inv.create2State k hold
      · intro hall
        exact (update_self_ne s.threads i _ (hall i).1).elim
      · intro k r hk
        rcases update_eq_cases s.threads i k _ _ hk with ⟨_, hv⟩ | ⟨_, hold⟩
        · exact PC.noConfusion hv
        · exact inv.doneInst k r hold
  | assignInstance i hpc =>
      have hinstN : s.inst = none := inv.create1None i hpc
      have hobj0 : s.objects = 0 := (inv.instNone).mp hinstN
      have hconns0 : s.conns = 0 := by
        have := inv.connsLe
        omega
      refine ⟨?_, ?_, ?_, ?_, ?_, ?_, ?_, ?_, ?_⟩
      · intro k hk
        rcases update_holdsLock_cases s.threads i k _ hk with ⟨rfl, _⟩ | ⟨_, hold⟩
        · exact inv.lockOwner k (by rw [hpc]; rfl)
        · exact inv.lockOwner k hold
      · show s.objects + 1 ≤ 1
        omega
      · show some s.objects = none ↔ s.objects + 1 = 0
        simp
      · intro k hk
        injection hk with hk
        omega
      · intro k hk
        rcases update_eq_cases s.threads i k _ _ hk with ⟨_, hv⟩ | ⟨hne, hold⟩
        · exact PC.noConfusion hv
        · exact absurd (lock_unique inv (by rw [hpc]; rfl) (by rw [hold]; rfl))
            hne.symm
      · intro k hk
        rcases update_eq_cases s.threads i k _ _ hk with ⟨_, _⟩ | ⟨hne, hold⟩
        · refine ⟨?_, hconns0⟩
          show s.objects + 1 = 1
          omega
        · exact absurd (lock_unique inv (by rw [hpc]; rfl) (by rw [hold]; rfl))
            hne.symm
      · show s.conns ≤ s.objects + 1
        omega
      · intro hall
        exact (update_self_ne s.threads i _ (hall i).2).elim
      · intro k r hk
        rcases update_eq_cases s.threads i k _ _ hk with ⟨_, hv⟩ | ⟨_, hold⟩
        · exact PC.noConfusion hv
        · have hd := inv.doneInst k r hold
          rw [hinstN] at hd
          exact Option.noConfusion hd
  | runInitialize i hpc =>
      have hco := inv.create2State i hpc
      refine ⟨?_, inv.objLe, inv.instNone, inv.instZero, ?_, ?_, ?_, ?_, ?_⟩
      · intro k hk
        rcases update_holdsLock_cases s.threads i k _ hk with ⟨rfl, _⟩ | ⟨_, hold⟩
        · exact inv.lockOwner k (by rw [hpc]; rfl)
        · exact inv.lockOwner k hold
      · intro k hk
        rcases update_eq_cases s.threads i k _ _ hk with ⟨_, hv⟩ | ⟨hne, hold⟩
        · exact PC.noConfusion hv
        · exact absurd (lock_unique inv (by rw [hpc]; rfl) (by rw [hold]; rfl))
            hne.symm
      · intro k hk
        rcases update_eq_cases s.threads i k _ _ hk with ⟨_, hv⟩ | ⟨hne, hold⟩
        · exact PC.noConfusion hv
        · exact absurd (lock_unique inv (by rw [hpc]; rfl) (by rw [hold]; rfl))
            hne.symm
      · show s.conns + 1 ≤ s.objects
        omega
      · intro _
        show s.conns + 1 = s.objects
        omega
      · intro k r hk
        rcases update_eq_cases s.threads i k _ _ hk with ⟨_, hv⟩ | ⟨_, hold⟩
        · exact PC.noConfusion hv
        · exact inv.doneInst k r hold
  | releaseReturn i j hpc hinst =>
      refine ⟨?_, inv.objLe, inv.instNone, inv.instZero, ?_, ?_,
        inv.connsLe, ?_, ?_⟩
      · intro k hk
        rcases update_holdsLock_cases s.threads i k _ hk with ⟨_, hv⟩ | ⟨hne, hold⟩
        · simp [holdsLock] at hv
        · exact absurd (lock_unique inv (by rw [hpc]; rfl) hold) hne.symm
      · intro k hk
        rcases update_eq_cases s.threads i k _ _ hk with ⟨_, hv⟩ | ⟨hne, hold⟩
        · exact PC.noConfusion hv
        · exact absurd (lock_unique inv (by rw [hpc]; rfl) (by rw [hold]; rfl))
            hne.symm
      · intro k hk
        rcases update_eq_cases s.threads i k _ _ hk with ⟨_, hv⟩ | ⟨hne, hold⟩
        · exact PC.noConfusion hv
        · exact absurd (lock_unique inv (by rw [hpc]; rfl) (by rw [hold]; rfl))
            hne.symm
      · intro hall
        apply inv.connsFull
        intro k
        by_cases hk : k = i
        · subst hk
          rw [hpc]
          exact ⟨by simp, by simp⟩
        · exact ⟨update_ne_of_ne s.threads i k _ _ (hall k).1 hk,
            update_ne_of_ne s.threads i k _ _ (hall k).2 hk⟩
      · intro k r hk
        rcases update_eq_cases s.threads i k _ _ hk with ⟨_, hv⟩ | ⟨_, hold⟩
        · injection hv with hjr
          rw [← hjr]
          exact hinst
        · exact inv.doneInst k r hold

/-- The invariant holds in every reachable state. -/
theorem inv_reachable {N : Nat} {s : SysState N} (h : Reachable N s) :
    Inv N s := by
  have h' : Relation.ReflTransGen (Step N) (initState N) s := h
  clear h
  induction h' with
  | refl => exact inv_init N
  | tail _ hstep ih => exact inv_step ih hstep

/-- The concrete two-thread interleaving reaches `twoThreadFinal`:
thread 0 creates and initializes the object; thread 1's first (unlocked)
check finds the slot assigned and reuses the object. -/
theorem twoThreadFinal_reachable : Reachable 2 twoThreadFinal := by
  have h1 : Step 2 cs0 cs1 := Step.checkMissing cs0 0 rfl rfl
  have h2 : Step 2 cs1 cs2 := Step.acquire cs1 0 rfl rfl
  have h3 : Step 2 cs2 cs3 := Step.checkAgainMissing cs2 0 rfl rfl
  have h4 : Step 2 cs3 cs4 := Step.assignInstance cs3 0 rfl
  have h5 : Step 2 cs4 cs5 := Step.checkFound cs4 1 0 rfl rfl
  have h6 : Step 2 cs5 cs6 := Step.runInitialize cs5 0 rfl
  have h7 : Step 2 cs6 cs7 := Step.releaseReturn cs6 0 0 rfl rfl
  have hchain : Relation.ReflTransGen (Step 2) cs0 cs7 :=
    .tail (.tail (.tail (.tail (.tail (.tail (.single h1) h2) h3) h4) h5) h6) h7
  have ht : cs7.threads = fun _ : Fin 2 => PC.done 0 := by
    funext k
    fin_cases k <;> rfl
  have he : cs7 = twoThreadFinal := by
    calc cs7 = { inst := some 0, lockHeld := none, objects := 1, conns := 1,
                 threads := cs7.threads } := rfl
    _ = twoThreadFinal := by rw [ht]; rfl
  exact he ▸ hchain

/-- C7: in every interleaving of N threads concurrently performing a
first-time `FirebaseClient()` construction that runs to completion,
exactly one instance is created and exactly one `_initialize` call — one
underlying connection — is performed: after the lock is acquired, a
thread that finds the instance already created reuses it (every thread
returns the unique object, id 0) instead of constructing a second one. -/
theorem singleton_one_connection (N : Nat) (s : SysState N)
    (hr : Reachable N s)
    (hdone : ∀ i : Fin N, ∃ r, s.threads i = PC.done r)
    (hN : 0 < N) :
    s.conns = 1 ∧ s.objects = 1 ∧
      ∀ (i : Fin N) (r : Nat), s.threads i = PC.done r → r = 0 := by
  have inv := inv_reachable hr
  have hcf : s.conns = s.objects := by
    apply inv.connsFull
    intro k
    obtain ⟨r, hk⟩ := hdone k
    rw [hk]
    exact ⟨by simp, by simp⟩
  obtain ⟨r0, h0⟩ := hdone ⟨0, hN⟩
  have hinst := inv.doneInst _ r0 h0
  have hobj : s.objects ≠ 0 := by
    intro hz
    rw [(inv.instNone).mpr hz] at hinst
    exact Option.noConfusion hinst
  have hobj1 : s.objects = 1 := by
    have := inv.objLe
    omega
  refine ⟨by omega, hobj1, ?_⟩
  intro i r hi
  exact inv.instZero r (inv.doneInst i r hi)

/-- Witness for C7 at the concrete two-thread interleaving
`twoThreadFinal`: one connection, one object, both threads got it. -/
theorem singleton_one_connection_witness :
    (Reachable 2 twoThreadFinal ∧
      (∀ i : Fin 2, ∃ r, twoThreadFinal.threads i = PC.done r) ∧
      0 < 2) ∧
    (twoThreadFinal.conns = 1 ∧ twoThreadFinal.objects = 1 ∧
      ∀ (i : Fin 2) (r : Nat),
        twoThreadFinal.threads i = PC.done r → r = 0) :=
  ⟨⟨twoThreadFinal_reachable, fun _ => ⟨0, rfl⟩, by decide⟩,
   singleton_one_connection 2 twoThreadFinal twoThreadFinal_reachable
     (fun _ => ⟨0, rfl⟩) (by decide)⟩

end ARLET
